import Mathlib

/-!
Verification of the column-alignment matching engine
(`src/lib/smart-alignment.ts`, class `SmartAlignmentEngine`).

Modelling conventions:
* JS numbers are modelled as exact rationals (`ℚ`); the engine only performs
  additions, multiplications by fixed constants, and divisions of small values.
* JS strings are Lean `String`s; character-level work uses `List Char`.
  (`String.length` counts UTF-16 units in JS and codepoints here; identical on
  the ASCII data the engine deals with.)
* Sample rows (`any[]` holding plain objects) are modelled as association
  lists `List (String × Option String)`: a key bound to `none` models a null
  field, an absent key models `undefined`.  Scalar values are modelled as
  strings (CSV-derived data).
* `Number(v)` being non-NaN and `Date.parse(v)` being non-NaN are
  host-environment-defined partial parsers; they enter the model as explicit
  boolean oracle parameters `numOk` / `dateOk` threaded through the engine.
  All universally quantified theorems hold for every oracle.
-/

/-- Minimum of two rationals (`Math.min`), written out so that it reduces in
the kernel. -/
def ratMin (a b : ℚ) : ℚ := if a ≤ b then a else b

/-- JS `Math.round`: round half toward positive infinity. -/
def jsRound (q : ℚ) : Int := Rat.floor (q + 1/2)

/-- JS `String.prototype.toLowerCase` restricted to ASCII
(`Char.toLower` lowers exactly `A`–`Z`). -/
def jsToLowerStr (s : String) : String := String.mk (s.data.map Char.toLower)

/-- `normalizeColumnName`: lower-case, then `.replace(/[_\s-]+/g, "")`
(removing every separator char — replacing runs by the empty string removes
exactly the member characters), then `.replace(/[^a-z0-9]/g, "")`. -/
def normalizeColumnName (name : String) : List Char :=
  ((name.data.map Char.toLower).filter
      (fun c => !(c == '_' || c == '-' || c.isWhitespace))).filter
    (fun c => c.isLower || c.isDigit)

/-- Whether `s` starts with the character sequence `pat`. -/
def startsWithSeq : List Char → List Char → Bool
  | _, [] => true
  | [], _ :: _ => false
  | a :: s, b :: t => a == b && startsWithSeq s t

/-- JS `String.prototype.includes`: `pat` occurs contiguously in `s`. -/
def containsSeq : List Char → List Char → Bool
  | [], pat => startsWithSeq [] pat
  | a :: rest, pat => startsWithSeq (a :: rest) pat || containsSeq rest pat

/-- Substitution cost of the Levenshtein recurrence. -/
def levCost (a b : Char) : Nat := if a = b then 0 else 1

/-- Helper realizing the inner recursion of the textbook Levenshtein
definition (structural in both arguments). -/
def levRefAux (a : Char) (s : List Char) (f : List Char → Nat) :
    List Char → Nat
  | [] => s.length + 1
  | b :: t =>
    min (f (b :: t) + 1)
      (min (levRefAux a s f t + 1) (f t + levCost a b))

/-- Reference definition of the Levenshtein edit distance (insert / delete /
substitute, unit costs), recursing on the fronts of both strings.  This is the
`edit distance` the specification's similarity formula refers to. -/
def levRef : List Char → List Char → Nat
  | [], t => t.length
  | a :: s, t => levRefAux a s (levRef s) t

/-- One row step of the dynamic-programming table built by
`calculateStringSimilarity`: `levMatrixRow s t j prev i` is `matrix[j+1][i]`
when `prev` is `matrix[j]`. -/
def levMatrixRow (s t : List Char) (j : Nat) (prev : Nat → Nat) : Nat → Nat
  | 0 => j + 1
  | i + 1 =>
    min (levMatrixRow s t j prev i + 1)
      (min (prev (i + 1) + 1)
        (prev i + levCost (s.getD i 'a') (t.getD j 'a')))

/-- The source's DP table: `levMatrix s t j i` is `matrix[j][i]` of
`calculateStringSimilarity` (rows indexed by `t` = `norm2`, columns by
`s` = `norm1`).  Out-of-range character reads never occur for the indices
the engine consults (`j ≤ t.length`, `i ≤ s.length`). -/
def levMatrix (s t : List Char) : Nat → Nat → Nat
  | 0 => fun i => i
  | j + 1 => levMatrixRow s t j (levMatrix s t j)

/-- `calculateStringSimilarity`: early 1.0 on equal normalized names, else
`1 - matrix[norm2.length][norm1.length] / max(len1, len2)` (1 when both
normalized names are empty). -/
def calculateStringSimilarity (str1 str2 : String) : ℚ :=
  let norm1 := normalizeColumnName str1
  let norm2 := normalizeColumnName str2
  if norm1 = norm2 then 1
  else
    let maxLength := max norm1.length norm2.length
    if maxLength = 0 then 1
    else 1 - (levMatrix norm1 norm2 norm2.length norm1.length : ℚ) / (maxLength : ℚ)

/-- Which phase produced a match (`ColumnMatch.type`). -/
inductive MatchType
  | exact
  | similar
  | pattern
  | semantic
deriving DecidableEq, Repr

/-- `ColumnMatch` of the source. -/
structure ColumnMatch where
  sourceColumn : String
  targetColumn : String
  confidence : ℚ
  reasons : List String
  type : MatchType
deriving DecidableEq, Repr

/-- `AlignmentSuggestion` of the source. -/
structure AlignmentSuggestion where
  «matches» : List ColumnMatch
  unmatchedSource : List String
  unmatchedTarget : List String
  confidence : ℚ
deriving DecidableEq, Repr

/-- A sample row: JS plain object, keys bound to a string or to null. -/
abbrev Row := List (String × Option String)

/-- JS property read `row[col]`: `none` for an absent key (undefined) and for
a null binding — both are exactly the values `v != null` filters out. -/
def lookupField (row : Row) (col : String) : Option String :=
  match row.find? (fun kv => kv.1 == col) with
  | some kv => kv.2
  | none => none

/-- `data.slice(0, 100).map(row => row[col]).filter(v => v != null)`. -/
def sampleValues (data : List Row) (col : String) : List String :=
  (data.take 100).filterMap (fun row => lookupField row col)

/-- The four type labels of `analyzeDataTypes`. -/
inductive ValType
  | number
  | boolean
  | date
  | string
deriving DecidableEq, Repr

/-- Per-value classification of `analyzeDataTypes` (branch order of the
source: number, then boolean, then date, else string).  `numOk v` models
`!isNaN(Number(v))`, `dateOk v` models `!isNaN(Date.parse(v))`. -/
def classifyValue (numOk dateOk : String → Bool) (v : String) : ValType :=
  if numOk v then ValType.number
  else if ["true", "false", "1", "0"].contains (jsToLowerStr v) then ValType.boolean
  else if dateOk v then ValType.date
  else ValType.string

/-- Insertion into an insertion-ordered set (JS `Set.add` / fresh record key). -/
def setInsert {α : Type} [BEq α] (l : List α) (a : α) : List α :=
  if l.contains a then l else l ++ [a]

/-- The distinct elements of `l` in first-occurrence order (JS `new Set(l)`). -/
def setOfList {α : Type} [BEq α] (l : List α) : List α :=
  l.foldl setInsert []

/-- `analyzeDataTypes`: histogram `type → count` as an insertion-ordered
association list (JS record). -/
def analyzeDataTypes (numOk dateOk : String → Bool) (sample : List String) :
    List (ValType × Nat) :=
  sample.foldl
    (fun types v =>
      let ty := classifyValue numOk dateOk v
      if types.any (fun p => p.1 == ty) then
        types.map (fun p => if p.1 == ty then (p.1, p.2 + 1) else p)
      else types ++ [(ty, 1)])
    []

/-- The pattern tags of `extractValuePatterns`. -/
inductive PatTag
  | length_ (n : Nat)
  | all_digits
  | all_letters
  | alphanumeric
  | contains_spaces
  | contains_at
  | date_format
deriving DecidableEq, Repr

/-- `\d{4}-\d{2}-\d{2}` matches at the head of `l`. -/
def dateShapeAt : List Char → Bool
  | a :: b :: c :: d :: e :: f :: g :: h :: i :: j :: _ =>
    a.isDigit && b.isDigit && c.isDigit && d.isDigit && e == '-' &&
      f.isDigit && g.isDigit && h == '-' && i.isDigit && j.isDigit
  | _ => false

/-- `/\d{4}-\d{2}-\d{2}/.test(str)`: the shape occurs somewhere in `l`. -/
def hasDateShape : List Char → Bool
  | [] => false
  | c :: rest => dateShapeAt (c :: rest) || hasDateShape rest

/-- Tags contributed by a single value, in the push order of the source. -/
def valueTags (v : String) : List PatTag :=
  let cs := v.data
  [PatTag.length_ cs.length] ++
    (if cs ≠ [] && cs.all Char.isDigit then [PatTag.all_digits] else []) ++
    (if cs ≠ [] && cs.all Char.isAlpha then [PatTag.all_letters] else []) ++
    (if cs ≠ [] && cs.all Char.isAlphanum then [PatTag.alphanumeric] else []) ++
    (if cs.any Char.isWhitespace then [PatTag.contains_spaces] else []) ++
    (if cs.any (fun c => c == '@') then [PatTag.contains_at] else []) ++
    (if hasDateShape cs then [PatTag.date_format] else [])

/-- `extractValuePatterns`: distinct tags of the first 20 values. -/
def extractValuePatterns (sample : List String) : List PatTag :=
  setOfList (((sample.take 20).map valueTags).flatten)

/-- Scoring body of `calculatePatternSimilarity` once both samples are known
to be nonempty: type overlap (weight 0.4), value-pattern overlap (weight 0.3),
literal value overlap (weight 0.3), capped at 1. -/
def patternScoreOfSamples (numOk dateOk : String → Bool)
    (sourceSample targetSample : List String) : ℚ × List String :=
  let sourceTypes := analyzeDataTypes numOk dateOk sourceSample
  let targetTypes := analyzeDataTypes numOk dateOk targetSample
  let sourceKeys := sourceTypes.map Prod.fst
  let targetKeys := targetTypes.map Prod.fst
  let typeOverlap := (sourceKeys.filter (fun ty => targetKeys.contains ty)).length
  let totalTypes := (setOfList (sourceKeys ++ targetKeys)).length
  let typeScore : ℚ := (typeOverlap : ℚ) / (totalTypes : ℚ)
  let score1 : ℚ := if 0 < typeOverlap then typeScore * (2/5) else 0
  let reasons1 : List String :=
    if 0 < typeOverlap then
      ["Similar data types (" ++ toString (jsRound (typeScore * 100)) ++ "% overlap)"]
    else []
  let sourcePatterns := extractValuePatterns sourceSample
  let targetPatterns := extractValuePatterns targetSample
  let patternOverlap :=
    (sourcePatterns.filter (fun p => targetPatterns.contains p)).length
  let score2 : ℚ :=
    if 0 < patternOverlap then
      (patternOverlap : ℚ) / ((max sourcePatterns.length targetPatterns.length : Nat) : ℚ) * (3/10)
    else 0
  let reasons2 : List String :=
    if 0 < patternOverlap then
      ["Similar value patterns (" ++ toString patternOverlap ++ " common patterns)"]
    else []
  let sourceUnique := setOfList (sourceSample.map jsToLowerStr)
  let targetUnique := setOfList (targetSample.map jsToLowerStr)
  let inter := sourceUnique.filter (fun v => targetUnique.contains v)
  let score3 : ℚ :=
    if 0 < inter.length then
      (inter.length : ℚ) / ((max sourceUnique.length targetUnique.length : Nat) : ℚ) * (3/10)
    else 0
  let reasons3 : List String :=
    if 0 < inter.length then
      ["Common values (" ++ toString inter.length ++ " shared values)"]
    else []
  (ratMin (score1 + score2 + score3) 1, reasons1 ++ reasons2 ++ reasons3)

/-- `calculatePatternSimilarity`. -/
def calculatePatternSimilarity (numOk dateOk : String → Bool)
    (sourceCol targetCol : String) (sourceData targetData : Option (List Row)) :
    ℚ × List String :=
  match sourceData, targetData with
  | some sd, some td =>
    let sourceSample := sampleValues sd sourceCol
    let targetSample := sampleValues td targetCol
    if sourceSample.length = 0 ∨ targetSample.length = 0 then (0, [])
    else patternScoreOfSamples numOk dateOk sourceSample targetSample
  | _, _ => (0, [])

/-- The fixed semantic-group table, in the source's insertion order. -/
def semanticGroups : List (String × List String) :=
  [("id", ["id", "identifier", "key", "pk", "primary", "uid", "uuid"]),
   ("name", ["name", "title", "label", "description", "desc"]),
   ("date", ["date", "time", "timestamp", "created", "updated", "modified"]),
   ("email", ["email", "mail", "address"]),
   ("phone", ["phone", "tel", "telephone", "mobile", "cell"]),
   ("address", ["address", "location", "street", "city", "state", "zip", "postal"]),
   ("amount", ["amount", "price", "cost", "value", "total", "sum"]),
   ("count", ["count", "number", "num", "quantity", "qty"]),
   ("status", ["status", "state", "condition", "flag"])]

/-- A pair of normalized names hits a group: some keyword occurs in the
source name and some (possibly different) keyword occurs in the target name. -/
def semanticPairHit (sourceNorm targetNorm : List Char)
    (g : String × List String) : Bool :=
  (g.2.any (fun k => containsSeq sourceNorm k.data)) &&
    (g.2.any (fun k => containsSeq targetNorm k.data))

/-- The group loop of `calculateSemanticSimilarity` (first hit wins, then
`break`). -/
def semanticScan (sourceNorm targetNorm : List Char) :
    List (String × List String) → ℚ × List String
  | [] => (0, [])
  | g :: rest =>
    if semanticPairHit sourceNorm targetNorm g then
      (4/5, ["Both columns relate to " ++ g.1])
    else semanticScan sourceNorm targetNorm rest

/-- `calculateSemanticSimilarity`. -/
def calculateSemanticSimilarity (sourceCol targetCol : String) : ℚ × List String :=
  semanticScan (normalizeColumnName sourceCol) (normalizeColumnName targetCol)
    semanticGroups

/-- Score and reason produced for one candidate pair of the similar-name
phase (the reason is only retained when the threshold test passes). -/
def similarScore (sourceCol targetCol : String) : ℚ × List String :=
  let s := calculateStringSimilarity sourceCol targetCol
  (s, ["High name similarity (" ++ toString (jsRound (s * 100)) ++ "%)"])

/-- Phase 1 of `analyzeColumnAlignment`: for each source column in order,
take the first unused target column with an equal normalized name. -/
def exactPhase (tCols : List String) :
    List String → List ColumnMatch → List String → List ColumnMatch × List String
  | [], ms, used => (ms, used)
  | c :: rest, ms, used =>
    match tCols.find?
        (fun t => !(used.contains t) &&
          (normalizeColumnName c == normalizeColumnName t)) with
    | some t =>
      exactPhase tCols rest
        (ms ++ [⟨c, t, 1, ["Exact column name match"], MatchType.exact⟩])
        (used ++ [t])
    | none => exactPhase tCols rest ms used

/-- The best-candidate loop shared by phases 2–4: skip used targets, require
`threshold ≤ score`, replace the current best only on strict improvement. -/
def bestTarget (scoreFn : String → ℚ × List String) (thr : ℚ)
    (used : List String) :
    List String → Option (String × ℚ × List String) →
      Option (String × ℚ × List String)
  | [], best => best
  | t :: rest, best =>
    if used.contains t then bestTarget scoreFn thr used rest best
    else
      let sr := scoreFn t
      if thr ≤ sr.1 then
        match best with
        | none => bestTarget scoreFn thr used rest (some (t, sr.1, sr.2))
        | some b =>
          if b.2.1 < sr.1 then bestTarget scoreFn thr used rest (some (t, sr.1, sr.2))
          else bestTarget scoreFn thr used rest best
      else bestTarget scoreFn thr used rest best

/-- Common shape of phases 2–4 of `analyzeColumnAlignment`. -/
def greedyPhase (tCols : List String) (scoreFn : String → String → ℚ × List String)
    (thr : ℚ) (ty : MatchType) :
    List String → List ColumnMatch → List String → List ColumnMatch × List String
  | [], ms, used => (ms, used)
  | c :: rest, ms, used =>
    match bestTarget (scoreFn c) thr used tCols none with
    | some (t, sc, rs) =>
      greedyPhase tCols scoreFn thr ty rest (ms ++ [⟨c, t, sc, rs, ty⟩]) (used ++ [t])
    | none => greedyPhase tCols scoreFn thr ty rest ms used

/-- The four matching phases of `analyzeColumnAlignment` run in sequence,
returning the final `matches` array and the final `usedTargetColumns` set
(`rem2`–`rem4` are the recomputed `remainingSource` filters of the source). -/
def enginePhases (numOk dateOk : String → Bool)
    (sourceColumns targetColumns : List String)
    (sourceData targetData : Option (List Row)) : List ColumnMatch × List String :=
  let p1 := exactPhase targetColumns sourceColumns [] []
  let rem2 := sourceColumns.filter
    (fun c => !(p1.1.any (fun m => m.sourceColumn == c)))
  let p2 := greedyPhase targetColumns similarScore (4/5) MatchType.similar rem2 p1.1 p1.2
  let rem3 := sourceColumns.filter
    (fun c => !(p2.1.any (fun m => m.sourceColumn == c)))
  let p3 := greedyPhase targetColumns
    (fun c t => calculatePatternSimilarity numOk dateOk c t sourceData targetData)
    (3/5) MatchType.pattern rem3 p2.1 p2.2
  let rem4 := sourceColumns.filter
    (fun c => !(p3.1.any (fun m => m.sourceColumn == c)))
  greedyPhase targetColumns
    (fun c t => calculateSemanticSimilarity c t) (7/10) MatchType.semantic rem4 p3.1 p3.2

/-- `SmartAlignmentEngine.analyzeColumnAlignment`: the four phases in
sequence, then unmatched columns and the overall confidence. -/
def analyzeColumnAlignment (numOk dateOk : String → Bool)
    (sourceColumns targetColumns : List String)
    (sourceData targetData : Option (List Row)) : AlignmentSuggestion :=
  let p4 := enginePhases numOk dateOk sourceColumns targetColumns sourceData targetData
  let unmatchedSource := sourceColumns.filter
    (fun c => !(p4.1.any (fun m => m.sourceColumn == c)))
  let unmatchedTarget := targetColumns.filter (fun t => !(p4.2.contains t))
  let overallConfidence : ℚ :=
    if 0 < p4.1.length then
      (p4.1.foldl (fun sum m => sum + m.confidence) 0) / (p4.1.length : ℚ)
    else 0
  ⟨p4.1, unmatchedSource, unmatchedTarget, overallConfidence⟩

/-- Oracle standing for `Number` / `Date.parse` when no sample data is in
play (its value is then irrelevant). -/
def oracleNone : String → Bool := fun _ => false

/-! ### Levenshtein distance: the source's DP table computes the reference
edit distance. -/

/-- Unfolding lemma: distance from the empty string. -/
theorem levRef_nil (t : List Char) : levRef [] t = t.length := rfl

/-- Unfolding lemma: distance to the empty string. -/
theorem levRef_nil_right (s : List Char) : levRef s [] = s.length := by
  cases s <;> rfl

/-- Unfolding lemma: the two-sided cons case of the reference recurrence. -/
theorem levRef_cons_cons (a b : Char) (s t : List Char) :
    levRef (a :: s) (b :: t) =
      min (levRef s (b :: t) + 1)
        (min (levRef (a :: s) t + 1) (levRef s t + levCost a b)) := rfl

/-- The distance of a string to itself is zero. -/
theorem levRef_self (s : List Char) : levRef s s = 0 := by
  induction s with
  | nil => rfl
  | cons a s ih =>
    rw [levRef_cons_cons, ih]
    simp [levCost]

/-- Distributing an addition over a nested minimum of three terms. -/
theorem min3_add (x y z k : Nat) :
    min x (min y z) + k = min (x + k) (min (y + k) (z + k)) := by
  omega

set_option maxHeartbeats 800000 in
/-- The reference recurrence also holds when peeling the last characters:
this is the recurrence the source's prefix-indexed DP table uses. -/
theorem levRef_snoc (a b : Char) :
    ∀ xs ys : List Char,
      levRef (xs ++ [a]) (ys ++ [b]) =
        min (levRef xs (ys ++ [b]) + 1)
          (min (levRef (xs ++ [a]) ys + 1) (levRef xs ys + levCost a b)) := by
  intro xs
  induction xs with
  | nil =>
    intro ys
    induction ys with
    | nil =>
      simp only [List.nil_append]
      rw [levRef_cons_cons]
    | cons y ys ihy =>
      simp only [List.nil_append] at ihy ⊢
      rw [List.cons_append, levRef_cons_cons, ihy, levRef_cons_cons]
      simp only [levRef_nil, List.length_append, List.length_cons, List.length_nil]
      omega
  | cons x xs ihx =>
    intro ys
    induction ys with
    | nil =>
      have hx := ihx []
      simp only [List.nil_append] at hx ⊢
      rw [List.cons_append, levRef_cons_cons, hx, levRef_cons_cons,
        levRef_nil_right, levRef_nil_right, levRef_nil_right, levRef_nil_right]
      simp only [List.length_append, List.length_cons, List.length_nil]
      omega
    | cons y ys ihy =>
      have h1 := ihx (y :: ys)
      have h3 := ihx ys
      simp only [List.cons_append] at h1 ihy ⊢
      rw [levRef_cons_cons, h1, ihy, h3, levRef_cons_cons, levRef_cons_cons,
        levRef_cons_cons]
      simp only [min3_add]
      simp only [Nat.add_right_comm]
      ac_rfl

/-- Auxiliary strong induction for `levRef_rev`. -/
theorem levRef_rev_aux :
    ∀ n, ∀ s t : List Char, s.length + t.length ≤ n →
      levRef s.reverse t.reverse = levRef s t := by
  intro n
  induction n with
  | zero =>
    intro s t h
    cases s with
    | nil => simp [levRef_nil, levRef_nil_right]
    | cons x s => simp at h
  | succ n ih =>
    intro s t h
    cases s with
    | nil => simp [levRef_nil, levRef_nil_right]
    | cons x s =>
      cases t with
      | nil => simp [levRef_nil, levRef_nil_right]
      | cons y t =>
        rw [List.reverse_cons, List.reverse_cons, levRef_snoc,
          ← List.reverse_cons, ← List.reverse_cons,
          ih s (y :: t) (by simp at h ⊢; omega),
          ih (x :: s) t (by simp at h ⊢; omega),
          ih s t (by simp at h ⊢; omega),
          levRef_cons_cons]

/-- The reference edit distance is invariant under reversing both strings. -/
theorem levRef_rev (s t : List Char) :
    levRef s.reverse t.reverse = levRef s t :=
  levRef_rev_aux (s.length + t.length) s t le_rfl

/-- Each in-range entry `matrix[j][i]` of the source's DP table is the
reference edit distance of the corresponding prefixes. -/
theorem levMatrix_eq (s t : List Char) :
    ∀ j i, j ≤ t.length → i ≤ s.length →
      levMatrix s t j i = levRef ((s.take i).reverse) ((t.take j).reverse) := by
  intro j
  induction j with
  | zero =>
    intro i _ hi
    show i = _
    rw [List.take_zero, List.reverse_nil, levRef_nil_right]
    simp [List.length_take]
    omega
  | succ j ihj =>
    intro i hj
    induction i with
    | zero =>
      intro _
      show j + 1 = _
      rw [List.take_zero, List.reverse_nil, levRef_nil]
      simp [List.length_take]
      omega
    | succ i ihi =>
      intro hi
      have hlti : i < s.length := by omega
      have hltj : j < t.length := by omega
      rw [show levMatrix s t (j + 1) (i + 1) =
          min (levMatrix s t (j + 1) i + 1)
            (min (levMatrix s t j (i + 1) + 1)
              (levMatrix s t j i +
                levCost (s.getD i 'a') (t.getD j 'a'))) from rfl,
        ihi (by omega), ihj (i + 1) (by omega) (by omega), ihj i (by omega) (by omega),
        List.take_succ, List.take_succ,
        List.getElem?_eq_getElem hlti, List.getElem?_eq_getElem hltj]
      simp only [Option.toList_some, List.reverse_append, List.reverse_cons,
        List.reverse_nil, List.nil_append, List.singleton_append]
      rw [levRef_cons_cons]
      rw [List.getD_eq_getElem s 'a' hlti, List.getD_eq_getElem t 'a' hltj]

/-- The entry the source reads out (`matrix[norm2.length][norm1.length]`)
is the reference Levenshtein distance of the two full strings. -/
theorem levMatrix_corner (s t : List Char) :
    levMatrix s t t.length s.length = levRef s t := by
  rw [levMatrix_eq s t t.length s.length le_rfl le_rfl,
    List.take_length, List.take_length, levRef_rev]

/-- The similarity score of the similar-name phase, characterized by the
specification's formula: `1` when both normalized names are empty, otherwise
`1 − levRef(norm1, norm2) / max(len(norm1), len(norm2))` with `levRef` the
reference Levenshtein distance. -/
theorem calculateStringSimilarity_eq (str1 str2 : String) :
    calculateStringSimilarity str1 str2 =
      (if normalizeColumnName str1 = [] ∧ normalizeColumnName str2 = [] then 1
       else 1 - (levRef (normalizeColumnName str1) (normalizeColumnName str2) : ℚ) /
         ((max (normalizeColumnName str1).length
            (normalizeColumnName str2).length : Nat) : ℚ)) := by
  by_cases h : normalizeColumnName str1 = normalizeColumnName str2
  · by_cases hx : normalizeColumnName str2 = []
    · simp [calculateStringSimilarity, h, hx]
    · have hz := levRef_self (normalizeColumnName str2)
      simp [calculateStringSimilarity, h, hx, hz]
  · have hne : ¬(normalizeColumnName str1 = [] ∧ normalizeColumnName str2 = []) := by
      intro hh
      exact h (hh.1.trans hh.2.symm)
    have hmax : max (normalizeColumnName str1).length
        (normalizeColumnName str2).length ≠ 0 := by
      intro h0
      apply h
      have h1 : (normalizeColumnName str1).length = 0 := by omega
      have h2 : (normalizeColumnName str2).length = 0 := by omega
      rw [List.length_eq_zero] at h1 h2
      rw [h1, h2]
    have hcorner := levMatrix_corner (normalizeColumnName str1) (normalizeColumnName str2)
    simp [calculateStringSimilarity, h, hne, hmax, hcorner]

/-! ### Structural lemmas about the matching phases. -/

/-- Appending a fresh element preserves `Nodup`. -/
theorem nodup_snoc {α : Type} (l : List α) (a : α) (h : l.Nodup) (ha : a ∉ l) :
    (l ++ [a]).Nodup := by
  simp [List.nodup_append, h, ha]

/-- Any candidate produced by `bestTarget` (starting from any running best)
either is the running best or is an unused target whose score meets the
threshold and whose score/reasons pair comes from the score function. -/
theorem bestTarget_spec (f : String → ℚ × List String) (thr : ℚ)
    (used : List String) :
    ∀ (ts : List String) (best : Option (String × ℚ × List String))
      (r : String × ℚ × List String),
      bestTarget f thr used ts best = some r →
      best = some r ∨
        (used.contains r.1 = false ∧ f r.1 = (r.2.1, r.2.2) ∧ thr ≤ r.2.1) := by
  intro ts
  induction ts with
  | nil =>
    intro best r h
    exact Or.inl h
  | cons t rest ih =>
    intro best r h
    simp only [bestTarget] at h
    by_cases hc : used.contains t
    · rw [if_pos hc] at h
      exact ih best r h
    · rw [if_neg hc] at h
      by_cases hthr : thr ≤ (f t).1
      · rw [if_pos hthr] at h
        cases best with
        | none =>
          rcases ih _ r h with h1 | h2
          · right
            injection h1 with h1
            subst h1
            exact ⟨Bool.not_eq_true _ ▸ eq_false_of_ne_true hc, rfl, hthr⟩
          · exact Or.inr h2
        | some b =>
          dsimp only at h
          by_cases hlt : b.2.1 < (f t).1
          · rw [if_pos hlt] at h
            rcases ih _ r h with h1 | h2
            · right
              injection h1 with h1
              subst h1
              exact ⟨Bool.not_eq_true _ ▸ eq_false_of_ne_true hc, rfl, hthr⟩
            · exact Or.inr h2
          · rw [if_neg hlt] at h
            rcases ih _ r h with h1 | h2
            · exact Or.inl h1
            · exact Or.inr h2
      · rw [if_neg hthr] at h
        exact ih best r h

/-- When no target can reach the threshold, `bestTarget` returns its input. -/
theorem bestTarget_low (f : String → ℚ × List String) (thr : ℚ)
    (used : List String) (hf : ∀ t, ¬ thr ≤ (f t).1) :
    ∀ (ts : List String) (best : Option (String × ℚ × List String)),
      bestTarget f thr used ts best = best := by
  intro ts
  induction ts with
  | nil => intro best; rfl
  | cons t rest ih =>
    intro best
    simp only [bestTarget]
    by_cases hc : used.contains t
    · rw [if_pos hc]
      exact ih best
    · rw [if_neg hc, if_neg (hf t)]
      exact ih best

/-- A list whose `contains` test fails does not contain the element. -/
theorem contains_false_not_mem {α : Type} [BEq α] [LawfulBEq α]
    {l : List α} {a : α} (h : l.contains a = false) : a ∉ l := by
  intro hm
  have h2 : l.contains a = true := List.elem_iff.mpr hm
  exact Bool.false_ne_true (h.symm.trans h2)

/-- `greedyPhase` keeps the used-target set in lockstep with the target
columns of the accumulated matches. -/
theorem greedyPhase_used (tCols : List String)
    (f : String → String → ℚ × List String) (thr : ℚ) (ty : MatchType) :
    ∀ (srcs : List String) (ms : List ColumnMatch) (used : List String),
      used = ms.map ColumnMatch.targetColumn →
      (greedyPhase tCols f thr ty srcs ms used).2 =
        (greedyPhase tCols f thr ty srcs ms used).1.map ColumnMatch.targetColumn := by
  intro srcs
  induction srcs with
  | nil =>
    intro ms used h
    simpa using h
  | cons c rest ih =>
    intro ms used h
    simp only [greedyPhase]
    cases hbt : bestTarget (f c) thr used tCols none with
    | none => exact ih ms used h
    | some r =>
      rcases r with ⟨t, sc, rs⟩
      apply ih
      rw [h]
      simp

/-- `greedyPhase` preserves `Nodup` of the used-target set. -/
theorem greedyPhase_nodup (tCols : List String)
    (f : String → String → ℚ × List String) (thr : ℚ) (ty : MatchType) :
    ∀ (srcs : List String) (ms : List ColumnMatch) (used : List String),
      used.Nodup → (greedyPhase tCols f thr ty srcs ms used).2.Nodup := by
  intro srcs
  induction srcs with
  | nil =>
    intro ms used h
    simpa using h
  | cons c rest ih =>
    intro ms used h
    simp only [greedyPhase]
    cases hbt : bestTarget (f c) thr used tCols none with
    | none => exact ih ms used h
    | some r =>
      rcases r with ⟨t, sc, rs⟩
      apply ih
      rcases bestTarget_spec (f c) thr used tCols none (t, sc, rs) hbt with h1 | h2
      · exact absurd h1 (by simp)
      · exact nodup_snoc used t h (contains_false_not_mem h2.1)

/-- Provenance of matches appended by `greedyPhase`: each match of the output
either was already present or carries the phase's type, meets the phase's
threshold, and has its confidence/reasons produced by the score function. -/
theorem greedyPhase_mem (tCols : List String)
    (f : String → String → ℚ × List String) (thr : ℚ) (ty : MatchType) :
    ∀ (srcs : List String) (ms : List ColumnMatch) (used : List String)
      (m : ColumnMatch), m ∈ (greedyPhase tCols f thr ty srcs ms used).1 →
      m ∈ ms ∨
        (m.type = ty ∧ thr ≤ m.confidence ∧
          ∃ c t, f c t = (m.confidence, m.reasons)) := by
  intro srcs
  induction srcs with
  | nil =>
    intro ms used m hm
    exact Or.inl hm
  | cons c rest ih =>
    intro ms used m hm
    simp only [greedyPhase] at hm
    cases hbt : bestTarget (f c) thr used tCols none with
    | none =>
      rw [hbt] at hm
      exact ih ms used m hm
    | some r =>
      rcases r with ⟨t, sc, rs⟩
      rw [hbt] at hm
      rcases ih _ _ m hm with h1 | h2
      · rcases List.mem_append.1 h1 with h3 | h3
        · exact Or.inl h3
        · right
          rcases bestTarget_spec (f c) thr used tCols none (t, sc, rs) hbt
            with hbad | hgood
          · exact absurd hbad (by simp)
          · have hmeq : m = ⟨c, t, sc, rs, ty⟩ := by simpa using h3
            subst hmeq
            exact ⟨rfl, hgood.2.2, c, t, hgood.2.1⟩
      · exact Or.inr h2

/-- `greedyPhase` with an empty target list adds nothing. -/
theorem greedyPhase_nil_targets
    (f : String → String → ℚ × List String) (thr : ℚ) (ty : MatchType) :
    ∀ (srcs : List String) (ms : List ColumnMatch) (used : List String),
      greedyPhase [] f thr ty srcs ms used = (ms, used) := by
  intro srcs
  induction srcs with
  | nil => intro ms used; rfl
  | cons c rest ih =>
    intro ms used
    simp only [greedyPhase]
    exact ih ms used

/-- `greedyPhase` with a score function that never meets the threshold adds
nothing. -/
theorem greedyPhase_low (tCols : List String)
    (f : String → String → ℚ × List String) (thr : ℚ) (ty : MatchType)
    (hf : ∀ c t, ¬ thr ≤ (f c t).1) :
    ∀ (srcs : List String) (ms : List ColumnMatch) (used : List String),
      greedyPhase tCols f thr ty srcs ms used = (ms, used) := by
  intro srcs
  induction srcs with
  | nil => intro ms used; rfl
  | cons c rest ih =>
    intro ms used
    simp only [greedyPhase]
    rw [bestTarget_low (f c) thr used (hf c) tCols none]
    exact ih ms used

/-- `greedyPhase` over a duplicate-free batch of source columns, none of which
is already matched, keeps the source columns of the matches duplicate-free. -/
theorem greedyPhase_src_nodup (tCols : List String)
    (f : String → String → ℚ × List String) (thr : ℚ) (ty : MatchType) :
    ∀ (srcs : List String) (ms : List ColumnMatch) (used : List String),
      srcs.Nodup →
      (∀ c ∈ srcs, c ∉ ms.map ColumnMatch.sourceColumn) →
      (ms.map ColumnMatch.sourceColumn).Nodup →
      ((greedyPhase tCols f thr ty srcs ms used).1.map
        ColumnMatch.sourceColumn).Nodup := by
  intro srcs
  induction srcs with
  | nil =>
    intro ms used _ _ h
    simpa using h
  | cons c rest ih =>
    intro ms used hnd hdisj hms
    simp only [greedyPhase]
    cases hbt : bestTarget (f c) thr used tCols none with
    | none =>
      exact ih ms used (List.Nodup.of_cons hnd)
        (fun c' hc' => hdisj c' (List.mem_cons_of_mem c hc')) hms
    | some r =>
      rcases r with ⟨t, sc, rs⟩
      apply ih _ _ (List.Nodup.of_cons hnd)
      · intro c' hc'
        simp only [List.map_append, List.map_cons, List.map_nil]
        intro hmem
        rcases List.mem_append.1 hmem with h3 | h3
        · exact hdisj c' (List.mem_cons_of_mem c hc') h3
        · have : c' = c := by simpa using h3
          subst this
          exact (List.nodup_cons.1 hnd).1 hc'
      · simp only [List.map_append, List.map_cons, List.map_nil]
        exact nodup_snoc _ c hms (hdisj c (List.mem_cons_self c rest))

/-- `exactPhase` keeps the used-target set in lockstep with the target
columns of the accumulated matches. -/
theorem exactPhase_used (tCols : List String) :
    ∀ (srcs : List String) (ms : List ColumnMatch) (used : List String),
      used = ms.map ColumnMatch.targetColumn →
      (exactPhase tCols srcs ms used).2 =
        (exactPhase tCols srcs ms used).1.map ColumnMatch.targetColumn := by
  intro srcs
  induction srcs with
  | nil =>
    intro ms used h
    simpa using h
  | cons c rest ih =>
    intro ms used h
    simp only [exactPhase]
    cases hf : tCols.find? (fun t => !(used.contains t) &&
        (normalizeColumnName c == normalizeColumnName t)) with
    | none => exact ih ms used h
    | some t =>
      apply ih
      rw [h]
      simp

/-- `exactPhase` preserves `Nodup` of the used-target set. -/
theorem exactPhase_nodup (tCols : List String) :
    ∀ (srcs : List String) (ms : List ColumnMatch) (used : List String),
      used.Nodup → (exactPhase tCols srcs ms used).2.Nodup := by
  intro srcs
  induction srcs with
  | nil =>
    intro ms used h
    simpa using h
  | cons c rest ih =>
    intro ms used h
    simp only [exactPhase]
    cases hf : tCols.find? (fun t => !(used.contains t) &&
        (normalizeColumnName c == normalizeColumnName t)) with
    | none => exact ih ms used h
    | some t =>
      apply ih
      have hp := List.find?_some hf
      simp only [Bool.and_eq_true, Bool.not_eq_true'] at hp
      exact nodup_snoc used t h (contains_false_not_mem hp.1)

/-- Provenance of matches appended by the exact phase. -/
theorem exactPhase_mem (tCols : List String) :
    ∀ (srcs : List String) (ms : List ColumnMatch) (used : List String)
      (m : ColumnMatch), m ∈ (exactPhase tCols srcs ms used).1 →
      m ∈ ms ∨
        (m.confidence = 1 ∧ m.type = MatchType.exact ∧
          m.reasons = ["Exact column name match"]) := by
  intro srcs
  induction srcs with
  | nil =>
    intro ms used m hm
    exact Or.inl hm
  | cons c rest ih =>
    intro ms used m hm
    simp only [exactPhase] at hm
    cases hf : tCols.find? (fun t => !(used.contains t) &&
        (normalizeColumnName c == normalizeColumnName t)) with
    | none =>
      rw [hf] at hm
      exact ih ms used m hm
    | some t =>
      rw [hf] at hm
      rcases ih _ _ m hm with h1 | h2
      · rcases List.mem_append.1 h1 with h3 | h3
        · exact Or.inl h3
        · right
          have hmeq : m = ⟨c, t, 1, ["Exact column name match"], MatchType.exact⟩ := by
            simpa using h3
          subst hmeq
          exact ⟨rfl, rfl, rfl⟩
      · exact Or.inr h2

/-- `exactPhase` with an empty target list adds nothing. -/
theorem exactPhase_nil_targets :
    ∀ (srcs : List String) (ms : List ColumnMatch) (used : List String),
      exactPhase [] srcs ms used = (ms, used) := by
  intro srcs
  induction srcs with
  | nil => intro ms used; rfl
  | cons c rest ih =>
    intro ms used
    simp only [exactPhase, List.find?_nil]
    exact ih ms used

/-- `exactPhase` over duplicate-free source columns, disjoint from the already
matched ones, keeps the source columns of the matches duplicate-free. -/
theorem exactPhase_src_nodup (tCols : List String) :
    ∀ (srcs : List String) (ms : List ColumnMatch) (used : List String),
      srcs.Nodup →
      (∀ c ∈ srcs, c ∉ ms.map ColumnMatch.sourceColumn) →
      (ms.map ColumnMatch.sourceColumn).Nodup →
      ((exactPhase tCols srcs ms used).1.map ColumnMatch.sourceColumn).Nodup := by
  intro srcs
  induction srcs with
  | nil =>
    intro ms used _ _ h
    simpa using h
  | cons c rest ih =>
    intro ms used hnd hdisj hms
    simp only [exactPhase]
    cases hf : tCols.find? (fun t => !(used.contains t) &&
        (normalizeColumnName c == normalizeColumnName t)) with
    | none =>
      exact ih ms used (List.Nodup.of_cons hnd)
        (fun c' hc' => hdisj c' (List.mem_cons_of_mem c hc')) hms
    | some t =>
      apply ih _ _ (List.Nodup.of_cons hnd)
      · intro c' hc'
        simp only [List.map_append, List.map_cons, List.map_nil]
        intro hmem
        rcases List.mem_append.1 hmem with h3 | h3
        · exact hdisj c' (List.mem_cons_of_mem c hc') h3
        · have : c' = c := by simpa using h3
          subst this
          exact (List.nodup_cons.1 hnd).1 hc'
      · simp only [List.map_append, List.map_cons, List.map_nil]
        exact nodup_snoc _ c hms (hdisj c (List.mem_cons_self c rest))

/-- A failed `any`-test for a source column means the column is not among the
matches' source columns. -/
theorem not_any_src {ms : List ColumnMatch} {c : String}
    (h : (!(ms.any (fun m => m.sourceColumn == c))) = true) :
    c ∉ ms.map ColumnMatch.sourceColumn := by
  intro hmem
  rcases List.mem_map.1 hmem with ⟨m, hm, he⟩
  rw [Bool.not_eq_true', List.any_eq_false] at h
  have := h m hm
  simp [he] at this

/-- Through all four phases, the used-target set is exactly the list of
target columns of the matches, in order. -/
theorem enginePhases_used (numOk dateOk : String → Bool)
    (sCols tCols : List String) (sd td : Option (List Row)) :
    (enginePhases numOk dateOk sCols tCols sd td).2 =
      (enginePhases numOk dateOk sCols tCols sd td).1.map
        ColumnMatch.targetColumn := by
  simp only [enginePhases]
  apply greedyPhase_used
  apply greedyPhase_used
  apply greedyPhase_used
  apply exactPhase_used
  rfl

/-- The used-target set built by the four phases never repeats a target. -/
theorem enginePhases_used_nodup (numOk dateOk : String → Bool)
    (sCols tCols : List String) (sd td : Option (List Row)) :
    (enginePhases numOk dateOk sCols tCols sd td).2.Nodup := by
  simp only [enginePhases]
  apply greedyPhase_nodup
  apply greedyPhase_nodup
  apply greedyPhase_nodup
  apply exactPhase_nodup
  exact List.nodup_nil

/-- Provenance of every match of the engine: it was produced by one of the
four phases, with that phase's type tag, meeting that phase's threshold, and
with the score/reasons pair computed by that phase's score function. -/
theorem enginePhases_mem (numOk dateOk : String → Bool)
    (sCols tCols : List String) (sd td : Option (List Row))
    (m : ColumnMatch) (hm : m ∈ (enginePhases numOk dateOk sCols tCols sd td).1) :
    (m.type = MatchType.exact ∧ m.confidence = 1 ∧
      m.reasons = ["Exact column name match"]) ∨
    (m.type = MatchType.similar ∧ 4/5 ≤ m.confidence ∧
      ∃ c t, similarScore c t = (m.confidence, m.reasons)) ∨
    (m.type = MatchType.pattern ∧ 3/5 ≤ m.confidence ∧
      ∃ c t, calculatePatternSimilarity numOk dateOk c t sd td =
        (m.confidence, m.reasons)) ∨
    (m.type = MatchType.semantic ∧ 7/10 ≤ m.confidence ∧
      ∃ c t, calculateSemanticSimilarity c t = (m.confidence, m.reasons)) := by
  simp only [enginePhases] at hm
  rcases greedyPhase_mem _ _ _ _ _ _ _ _ hm with h3 | hsem
  · rcases greedyPhase_mem _ _ _ _ _ _ _ _ h3 with h2 | hpat
    · rcases greedyPhase_mem _ _ _ _ _ _ _ _ h2 with h1 | hsim
      · rcases exactPhase_mem _ _ _ _ _ h1 with h0 | hex
        · simp at h0
        · exact Or.inl ⟨hex.2.1, hex.1, hex.2.2⟩
      · exact Or.inr (Or.inl hsim)
    · exact Or.inr (Or.inr (Or.inl hpat))
  · exact Or.inr (Or.inr (Or.inr hsem))

/-- When the source columns are duplicate-free, so are the source columns of
the matches the engine produces. -/
theorem enginePhases_src_nodup (numOk dateOk : String → Bool)
    (sCols tCols : List String) (sd td : Option (List Row))
    (h : sCols.Nodup) :
    ((enginePhases numOk dateOk sCols tCols sd td).1.map
      ColumnMatch.sourceColumn).Nodup := by
  simp only [enginePhases]
  apply greedyPhase_src_nodup
  · exact h.filter _
  · intro c hc
    exact not_any_src (List.mem_filter.1 hc).2
  · apply greedyPhase_src_nodup
    · exact h.filter _
    · intro c hc
      exact not_any_src (List.mem_filter.1 hc).2
    · apply greedyPhase_src_nodup
      · exact h.filter _
      · intro c hc
        exact not_any_src (List.mem_filter.1 hc).2
      · apply exactPhase_src_nodup
        · exact h
        · simp
        · simp

/-! ### Score bounds and characterizations of the per-phase score functions. -/

/-- `ratMin` is bounded by its second argument. -/
theorem ratMin_le_right (a b : ℚ) : ratMin a b ≤ b := by
  unfold ratMin
  split
  · assumption
  · exact le_refl b

/-- The similarity score never exceeds 1. -/
theorem calculateStringSimilarity_le_one (s t : String) :
    calculateStringSimilarity s t ≤ 1 := by
  rw [calculateStringSimilarity_eq]
  split
  · exact le_refl 1
  · have h0 : (0:ℚ) ≤ (levRef (normalizeColumnName s) (normalizeColumnName t) : ℚ) /
        ((max (normalizeColumnName s).length (normalizeColumnName t).length : Nat) : ℚ) :=
      div_nonneg (Nat.cast_nonneg _) (Nat.cast_nonneg _)
    linarith

/-- The pattern score never exceeds 1 (it is explicitly capped). -/
theorem calculatePatternSimilarity_le_one (numOk dateOk : String → Bool)
    (sc tc : String) (sd td : Option (List Row)) :
    (calculatePatternSimilarity numOk dateOk sc tc sd td).1 ≤ 1 := by
  unfold calculatePatternSimilarity
  cases sd with
  | none => norm_num
  | some sdl =>
    cases td with
    | none => norm_num
    | some tdl =>
      dsimp only
      split
      · norm_num
      · unfold patternScoreOfSamples
        exact ratMin_le_right _ _

/-- The semantic score is either 0 or 0.8, for any group table. -/
theorem semanticScan_fst (sn tn : List Char) :
    ∀ gs : List (String × List String),
      (semanticScan sn tn gs).1 = 0 ∨ (semanticScan sn tn gs).1 = 4/5 := by
  intro gs
  induction gs with
  | nil => exact Or.inl rfl
  | cons g rest ih =>
    simp only [semanticScan]
    split
    · exact Or.inr rfl
    · exact ih

/-- The semantic loop is first-match-wins: it returns 0.8 with a single
reason naming the first matching group, or 0 with no reasons. -/
theorem semanticScan_eq_find (sn tn : List Char) :
    ∀ gs : List (String × List String),
      semanticScan sn tn gs =
        (match gs.find? (fun g => semanticPairHit sn tn g) with
         | some g => ((4:ℚ)/5, ["Both columns relate to " ++ g.1])
         | none => (0, [])) := by
  intro gs
  induction gs with
  | nil => rfl
  | cons g rest ih =>
    by_cases hp : semanticPairHit sn tn g
    · simp only [semanticScan, if_pos hp, List.find?_cons_of_pos _ hp]
    · simp only [semanticScan, if_neg hp,
        List.find?_cons_of_neg _ (by simpa using hp), ih]

/-- Containment in the mapped target columns is the `any`-test the source
uses on the matches array. -/
theorem contains_map_targetColumn (ms : List ColumnMatch) (t : String) :
    (ms.map ColumnMatch.targetColumn).contains t =
      ms.any (fun m => m.targetColumn == t) := by
  rw [Bool.eq_iff_iff]
  constructor
  · intro h
    have hmem : t ∈ ms.map ColumnMatch.targetColumn := List.elem_iff.mp h
    rcases List.mem_map.1 hmem with ⟨m, hm, he⟩
    rw [List.any_eq_true]
    exact ⟨m, hm, by simp [he]⟩
  · intro h
    rcases List.any_eq_true.1 h with ⟨m, hm, he⟩
    apply List.elem_iff.mpr
    exact List.mem_map.2 ⟨m, hm, by simpa using he⟩

/-- Converse of `not_any_src`. -/
theorem not_mem_src_any {ms : List ColumnMatch} {c : String}
    (h : c ∉ ms.map ColumnMatch.sourceColumn) :
    (!(ms.any (fun m => m.sourceColumn == c))) = true := by
  rw [Bool.not_eq_true', List.any_eq_false]
  intro m hm he
  exact h (List.mem_map.2 ⟨m, hm, by simpa using he⟩)

/-- Folding addition of confidences equals adding the sum of confidences. -/
theorem foldl_add_conf :
    ∀ (l : List ColumnMatch) (x : ℚ),
      l.foldl (fun s m => s + m.confidence) x =
        x + (l.map ColumnMatch.confidence).sum := by
  intro l
  induction l with
  | nil => intro x; simp
  | cons m rest ih =>
    intro x
    simp only [List.foldl_cons, List.map_cons, List.sum_cons, ih]
    ring

/-! ### Claim theorems. -/

/-- C2: for every input, the `targetColumn` values across the matches are
pairwise distinct, and `unmatchedTarget` is exactly the list of target
columns (in input order) that are the `targetColumn` of no match. -/
theorem claim_C2_target_injective (numOk dateOk : String → Bool)
    (sCols tCols : List String) (sd td : Option (List Row)) :
    ((analyzeColumnAlignment numOk dateOk sCols tCols sd td).«matches».map
      ColumnMatch.targetColumn).Nodup ∧
    (analyzeColumnAlignment numOk dateOk sCols tCols sd td).unmatchedTarget =
      tCols.filter (fun t =>
        !((analyzeColumnAlignment numOk dateOk sCols tCols sd td).«matches».any
          (fun m => m.targetColumn == t))) := by
  constructor
  · have h := enginePhases_used_nodup numOk dateOk sCols tCols sd td
    rw [enginePhases_used] at h
    exact h
  · show tCols.filter _ = _
    simp only [analyzeColumnAlignment]
    rw [enginePhases_used]
    simp only [contains_map_targetColumn]

/-- C3: the overall confidence is 0 for an empty match list and otherwise the
arithmetic mean of the match confidences. -/
theorem claim_C3_overall_confidence (numOk dateOk : String → Bool)
    (sCols tCols : List String) (sd td : Option (List Row)) :
    (analyzeColumnAlignment numOk dateOk sCols tCols sd td).confidence =
      (if (analyzeColumnAlignment numOk dateOk sCols tCols sd td).«matches» = []
       then 0
       else ((analyzeColumnAlignment numOk dateOk sCols tCols
            sd td).«matches».map ColumnMatch.confidence).sum /
         ((analyzeColumnAlignment numOk dateOk sCols tCols
            sd td).«matches».length : ℚ)) := by
  simp only [analyzeColumnAlignment]
  generalize enginePhases numOk dateOk sCols tCols sd td = p
  rcases p with ⟨ms, used⟩
  by_cases he : ms = []
  · subst he
    simp
  · have hl : 0 < ms.length := List.length_pos.2 he
    simp only [hl, if_pos, if_neg he, foldl_add_conf]
    rw [zero_add]

/-- C5: the similar-name score is `1 − d/max(len₁,len₂)` where `d` is the
reference Levenshtein distance of the normalized names, and `1` when both
normalized names are empty. -/
theorem claim_C5_similarity_formula (str1 str2 : String) :
    calculateStringSimilarity str1 str2 =
      (if normalizeColumnName str1 = [] ∧ normalizeColumnName str2 = [] then 1
       else 1 - (levRef (normalizeColumnName str1) (normalizeColumnName str2) : ℚ) /
         ((max (normalizeColumnName str1).length
            (normalizeColumnName str2).length : Nat) : ℚ)) :=
  calculateStringSimilarity_eq str1 str2

/-- C7: the semantic score is 0.8 exactly when some fixed group has a keyword
occurring in each normalized name, in which case the single reason names the
first such group in table order; otherwise the score is 0 with no reasons. -/
theorem claim_C7_semantic_first_group (s t : String) :
    ((calculateSemanticSimilarity s t).1 = 4/5 ↔
      ∃ g ∈ semanticGroups,
        semanticPairHit (normalizeColumnName s) (normalizeColumnName t) g = true) ∧
    (match semanticGroups.find?
        (fun g => semanticPairHit (normalizeColumnName s) (normalizeColumnName t) g)
      with
     | some g => calculateSemanticSimilarity s t =
         ((4:ℚ)/5, ["Both columns relate to " ++ g.1])
     | none => calculateSemanticSimilarity s t = (0, [])) := by
  have hscan := semanticScan_eq_find (normalizeColumnName s)
    (normalizeColumnName t) semanticGroups
  have hdef : calculateSemanticSimilarity s t =
      semanticScan (normalizeColumnName s) (normalizeColumnName t)
        semanticGroups := rfl
  constructor
  · constructor
    · intro h
      cases hf : semanticGroups.find?
          (fun g => semanticPairHit (normalizeColumnName s)
            (normalizeColumnName t) g) with
      | none =>
        rw [hdef, hscan, hf] at h
        norm_num at h
      | some g =>
        exact ⟨g, List.mem_of_find?_eq_some hf, List.find?_some hf⟩
    · rintro ⟨g, hg, hp⟩
      cases hf : semanticGroups.find?
          (fun g => semanticPairHit (normalizeColumnName s)
            (normalizeColumnName t) g) with
      | none =>
        exact absurd hp (by simpa using List.find?_eq_none.1 hf g hg)
      | some g' =>
        rw [hdef, hscan, hf]
  · cases hf : semanticGroups.find?
        (fun g => semanticPairHit (normalizeColumnName s)
          (normalizeColumnName t) g) with
    | none =>
      rw [hdef, hscan, hf]
    | some g =>
      rw [hdef, hscan, hf]

/-- C4: every match's confidence lies in `[0,1]`; exact matches score exactly
1, similar matches at least 0.8, pattern matches between 0.6 and 1, and
semantic matches exactly 0.8. -/
theorem claim_C4_confidence_bounds (numOk dateOk : String → Bool)
    (sCols tCols : List String) (sd td : Option (List Row))
    (m : ColumnMatch)
    (hm : m ∈ (analyzeColumnAlignment numOk dateOk sCols tCols sd td).«matches») :
    (0 ≤ m.confidence ∧ m.confidence ≤ 1) ∧
    (m.type = MatchType.exact → m.confidence = 1) ∧
    (m.type = MatchType.similar → 4/5 ≤ m.confidence) ∧
    (m.type = MatchType.pattern → 3/5 ≤ m.confidence ∧ m.confidence ≤ 1) ∧
    (m.type = MatchType.semantic → m.confidence = 4/5) := by
  have hm' : m ∈ (enginePhases numOk dateOk sCols tCols sd td).1 := hm
  rcases enginePhases_mem numOk dateOk sCols tCols sd td m hm' with
    hex | hsim | hpat | hsem
  · refine ⟨⟨by rw [hex.2.1]; norm_num, by rw [hex.2.1]⟩,
      fun _ => hex.2.1, fun h => ?_, fun h => ?_, fun h => ?_⟩ <;>
      · rw [hex.1] at h
        exact absurd h (by decide)
  · rcases hsim with ⟨hty, hthr, c, t, hst⟩
    have hle : m.confidence ≤ 1 := by
      have := congrArg Prod.fst hst
      simp only at this
      rw [← this]
      exact calculateStringSimilarity_le_one c t
    refine ⟨⟨by linarith [hthr], hle⟩, fun h => ?_, fun _ => hthr,
      fun h => ?_, fun h => ?_⟩ <;>
      · rw [hty] at h
        exact absurd h (by decide)
  · rcases hpat with ⟨hty, hthr, c, t, hst⟩
    have hle : m.confidence ≤ 1 := by
      have := congrArg Prod.fst hst
      simp only at this
      rw [← this]
      exact calculatePatternSimilarity_le_one numOk dateOk c t sd td
    refine ⟨⟨by linarith [hthr], hle⟩, fun h => ?_, fun h => ?_,
      fun _ => ⟨hthr, hle⟩, fun h => ?_⟩ <;>
      · rw [hty] at h
        exact absurd h (by decide)
  · rcases hsem with ⟨hty, hthr, c, t, hst⟩
    have hval : m.confidence = 4/5 := by
      have hfst := congrArg Prod.fst hst
      simp only at hfst
      rcases semanticScan_fst (normalizeColumnName c) (normalizeColumnName t)
          semanticGroups with h0 | h08
      · exfalso
        have : (calculateSemanticSimilarity c t).1 = 0 := h0
        rw [hfst] at this
        rw [this] at hthr
        norm_num at hthr
      · have : (calculateSemanticSimilarity c t).1 = 4/5 := h08
        rw [hfst] at this
        exact this
    refine ⟨⟨by rw [hval]; norm_num, by rw [hval]; norm_num⟩,
      fun h => ?_, fun h => ?_, fun h => ?_, fun _ => hval⟩ <;>
      · rw [hty] at h
        exact absurd h (by decide)

unseal Rat.mul Rat.inv Rat.add Rat.sub in
/-- Witness for C4 at a concrete input with one exact match. -/
theorem claim_C4_confidence_bounds_witness :
    (0 ≤ (ColumnMatch.mk "a" "a" 1 ["Exact column name match"]
        MatchType.exact).confidence ∧
      (ColumnMatch.mk "a" "a" 1 ["Exact column name match"]
        MatchType.exact).confidence ≤ 1) ∧
    ((ColumnMatch.mk "a" "a" 1 ["Exact column name match"]
        MatchType.exact).type = MatchType.exact →
      (ColumnMatch.mk "a" "a" 1 ["Exact column name match"]
        MatchType.exact).confidence = 1) ∧
    ((ColumnMatch.mk "a" "a" 1 ["Exact column name match"]
        MatchType.exact).type = MatchType.similar →
      4/5 ≤ (ColumnMatch.mk "a" "a" 1 ["Exact column name match"]
        MatchType.exact).confidence) ∧
    ((ColumnMatch.mk "a" "a" 1 ["Exact column name match"]
        MatchType.exact).type = MatchType.pattern →
      3/5 ≤ (ColumnMatch.mk "a" "a" 1 ["Exact column name match"]
        MatchType.exact).confidence ∧
      (ColumnMatch.mk "a" "a" 1 ["Exact column name match"]
        MatchType.exact).confidence ≤ 1) ∧
    ((ColumnMatch.mk "a" "a" 1 ["Exact column name match"]
        MatchType.exact).type = MatchType.semantic →
      (ColumnMatch.mk "a" "a" 1 ["Exact column name match"]
        MatchType.exact).confidence = 4/5) :=
  claim_C4_confidence_bounds oracleNone oracleNone ["a"] ["a"] none none
    (ColumnMatch.mk "a" "a" 1 ["Exact column name match"] MatchType.exact)
    (by decide)

/-- C1, amended: when `sourceColumns` has pairwise-distinct entries, every
source column either is the `sourceColumn` of exactly one match and absent
from `unmatchedSource`, or is the `sourceColumn` of no match and listed in
`unmatchedSource`. -/
theorem claim_C1_source_partition (numOk dateOk : String → Bool)
    (sCols tCols : List String) (sd td : Option (List Row))
    (h : sCols.Nodup) :
    ∀ c ∈ sCols,
      (((analyzeColumnAlignment numOk dateOk sCols tCols sd td).«matches».map
          ColumnMatch.sourceColumn).count c = 1 ∧
        c ∉ (analyzeColumnAlignment numOk dateOk sCols tCols
          sd td).unmatchedSource) ∨
      (((analyzeColumnAlignment numOk dateOk sCols tCols sd td).«matches».map
          ColumnMatch.sourceColumn).count c = 0 ∧
        c ∈ (analyzeColumnAlignment numOk dateOk sCols tCols
          sd td).unmatchedSource) := by
  intro c hc
  have hnd := enginePhases_src_nodup numOk dateOk sCols tCols sd td h
  have hmatch : (analyzeColumnAlignment numOk dateOk sCols tCols sd td).«matches» =
      (enginePhases numOk dateOk sCols tCols sd td).1 := rfl
  have hunm : (analyzeColumnAlignment numOk dateOk sCols tCols
      sd td).unmatchedSource =
      sCols.filter (fun c =>
        !((enginePhases numOk dateOk sCols tCols sd td).1.any
          (fun m => m.sourceColumn == c))) := rfl
  by_cases hmem : c ∈ (enginePhases numOk dateOk sCols tCols
      sd td).1.map ColumnMatch.sourceColumn
  · left
    constructor
    · rw [hmatch]
      exact List.count_eq_one_of_mem hnd hmem
    · rw [hunm]
      intro hin
      exact not_any_src (List.mem_filter.1 hin).2 hmem
  · right
    constructor
    · rw [hmatch]
      exact List.count_eq_zero.2 hmem
    · rw [hunm]
      exact List.mem_filter.2 ⟨hc, not_mem_src_any hmem⟩

unseal Rat.mul Rat.inv Rat.add Rat.sub in
/-- Witness for the amended C1 at a concrete duplicate-free input. -/
theorem claim_C1_source_partition_witness :
    ((((analyzeColumnAlignment oracleNone oracleNone ["a"] ["a"]
          none none).«matches».map ColumnMatch.sourceColumn).count "a" = 1 ∧
      "a" ∉ (analyzeColumnAlignment oracleNone oracleNone ["a"] ["a"]
        none none).unmatchedSource) ∨
     (((analyzeColumnAlignment oracleNone oracleNone ["a"] ["a"]
          none none).«matches».map ColumnMatch.sourceColumn).count "a" = 0 ∧
      "a" ∈ (analyzeColumnAlignment oracleNone oracleNone ["a"] ["a"]
        none none).unmatchedSource)) :=
  claim_C1_source_partition oracleNone oracleNone ["a"] ["a"] none none
    (by decide) "a" (by decide)

unseal Rat.mul Rat.inv Rat.add Rat.sub in
/-- Counterexample to C1 as stated: with duplicate source names
`["a", "a"]` against targets `["a", "A"]` (whose normalized names collide),
the engine emits two matches whose `sourceColumn` is `"a"`, so the element
`"a"` of `sourceColumns` is neither the `sourceColumn` of exactly one match
nor an element of `unmatchedSource`. -/
theorem claim_C1_counterexample :
    ¬ (∀ c ∈ (["a", "a"] : List String),
      (((analyzeColumnAlignment oracleNone oracleNone ["a", "a"] ["a", "A"]
          none none).«matches».map ColumnMatch.sourceColumn).count c = 1 ∧
        c ∉ (analyzeColumnAlignment oracleNone oracleNone ["a", "a"] ["a", "A"]
          none none).unmatchedSource) ∨
      (((analyzeColumnAlignment oracleNone oracleNone ["a", "a"] ["a", "A"]
          none none).«matches».map ColumnMatch.sourceColumn).count c = 0 ∧
        c ∈ (analyzeColumnAlignment oracleNone oracleNone ["a", "a"] ["a", "A"]
          none none).unmatchedSource)) := by
  intro h
  have h2 := h "a" (by decide)
  revert h2
  decide

/-- C9: two column names whose normalized forms are both empty are
name-identical, and on the singleton inputs the exact phase matches them with
type `exact`, confidence 1.0, and reason `"Exact column name match"`. -/
theorem claim_C9_empty_normalized_exact (numOk dateOk : String → Bool)
    (s t : String) (sd td : Option (List Row))
    (h1 : normalizeColumnName s = []) (h2 : normalizeColumnName t = []) :
    normalizeColumnName s = normalizeColumnName t ∧
    analyzeColumnAlignment numOk dateOk [s] [t] sd td =
      ⟨[⟨s, t, 1, ["Exact column name match"], MatchType.exact⟩], [], [], 1⟩ := by
  refine ⟨h1.trans h2.symm, ?_⟩
  have hfind : List.find? (fun t' => !(([] : List String).contains t') &&
      (normalizeColumnName s == normalizeColumnName t')) [t] = some t := by
    apply List.find?_cons_of_pos
    simp [h1, h2]
  have hphase1 : exactPhase [t] [s] [] [] =
      ([⟨s, t, 1, ["Exact column name match"], MatchType.exact⟩], [t]) := by
    simp only [exactPhase, hfind, List.nil_append]
  have hphases : enginePhases numOk dateOk [s] [t] sd td =
      ([⟨s, t, 1, ["Exact column name match"], MatchType.exact⟩], [t]) := by
    simp only [enginePhases, hphase1]
    simp [greedyPhase]
  simp only [analyzeColumnAlignment, hphases]
  simp [greedyPhase]

unseal Rat.mul Rat.inv Rat.add Rat.sub in
/-- Witness for C9 at the spec's example names `"___"` and `"---"`. -/
theorem claim_C9_empty_normalized_exact_witness :
    normalizeColumnName "___" = normalizeColumnName "---" ∧
    analyzeColumnAlignment oracleNone oracleNone ["___"] ["---"] none none =
      ⟨[⟨"___", "---", 1, ["Exact column name match"], MatchType.exact⟩],
        [], [], 1⟩ :=
  claim_C9_empty_normalized_exact oracleNone oracleNone "___" "---" none none
    (by decide) (by decide)

/-- C10: the engine is a total function into `AlignmentSuggestion` (it never
fails); with an empty source or target column list it returns no matches and
confidence 0, and with no sample data it never produces a `pattern` match. -/
theorem claim_C10_graceful_degradation (numOk dateOk : String → Bool)
    (sCols tCols : List String) (sd td : Option (List Row)) :
    (sCols = [] →
      analyzeColumnAlignment numOk dateOk sCols tCols sd td =
        ⟨[], [], tCols, 0⟩) ∧
    (tCols = [] →
      analyzeColumnAlignment numOk dateOk sCols tCols sd td =
        ⟨[], sCols, [], 0⟩) ∧
    (∀ m ∈ (analyzeColumnAlignment numOk dateOk sCols tCols
        none none).«matches», m.type ≠ MatchType.pattern) := by
  refine ⟨?_, ?_, ?_⟩
  · intro h
    subst h
    simp only [enginePhases, analyzeColumnAlignment, exactPhase, greedyPhase]
    simp
  · intro h
    subst h
    simp only [analyzeColumnAlignment, enginePhases, exactPhase_nil_targets,
      greedyPhase_nil_targets]
    simp
  · intro m hm hty
    have hm' : m ∈ (enginePhases numOk dateOk sCols tCols none none).1 := hm
    rcases enginePhases_mem numOk dateOk sCols tCols none none m hm' with
      hex | hsim | hpat | hsem
    · rw [hex.1] at hty
      exact absurd hty (by decide)
    · rw [hsim.1] at hty
      exact absurd hty (by decide)
    · rcases hpat with ⟨_, hthr, c, t, hst⟩
      have hzero : ((0:ℚ), ([] : List String)) = (m.confidence, m.reasons) := hst
      have hc0 : m.confidence = 0 := (congrArg Prod.fst hzero).symm
      rw [hc0] at hthr
      norm_num at hthr
    · rw [hsem.1] at hty
      exact absurd hty (by decide)

unseal Rat.mul Rat.inv Rat.add Rat.sub in
/-- Witness for C10: empty-source, empty-target, and no-sample-data cases at
concrete inputs. -/
theorem claim_C10_graceful_degradation_witness :
    analyzeColumnAlignment oracleNone oracleNone [] ["x"] none none =
      ⟨[], [], ["x"], 0⟩ ∧
    analyzeColumnAlignment oracleNone oracleNone ["x"] [] none none =
      ⟨[], ["x"], [], 0⟩ ∧
    (ColumnMatch.mk "a" "a" 1 ["Exact column name match"]
        MatchType.exact).type ≠ MatchType.pattern :=
  ⟨(claim_C10_graceful_degradation oracleNone oracleNone [] ["x"]
      none none).1 rfl,
   (claim_C10_graceful_degradation oracleNone oracleNone ["x"] []
      none none).2.1 rfl,
   (claim_C10_graceful_degradation oracleNone oracleNone ["a"] ["a"]
      none none).2.2
     (ColumnMatch.mk "a" "a" 1 ["Exact column name match"] MatchType.exact)
     (by decide)⟩

/-- C6, amended: the pattern phase scores 0 with no reasons when either
dataset's sample data is absent; otherwise the samples are the candidate
column's values from the first 100 rows with null and undefined dropped
(empty-string values are kept, see `sampleValues`), and if either sample is
empty the pair scores 0 with no reasons. -/
theorem claim_C6_pattern_sampling (numOk dateOk : String → Bool)
    (sc tc : String) :
    (∀ td, calculatePatternSimilarity numOk dateOk sc tc none td = (0, [])) ∧
    (∀ sd, calculatePatternSimilarity numOk dateOk sc tc sd none = (0, [])) ∧
    (∀ sd td, sampleValues sd sc = [] ∨ sampleValues td tc = [] →
      calculatePatternSimilarity numOk dateOk sc tc (some sd) (some td) =
        (0, [])) := by
  refine ⟨?_, ?_, ?_⟩
  · intro td
    cases td <;> rfl
  · intro sd
    cases sd <;> rfl
  · intro sd td h
    rcases h with h | h <;> simp [calculatePatternSimilarity, h]

/-- Witness for the amended C6 at concrete inputs. -/
theorem claim_C6_pattern_sampling_witness :
    calculatePatternSimilarity oracleNone oracleNone "a" "b" none
      (some [[("b", some "x")]]) = (0, []) ∧
    calculatePatternSimilarity oracleNone oracleNone "a" "b"
      (some [[("a", some "x")]]) none = (0, []) ∧
    calculatePatternSimilarity oracleNone oracleNone "a" "b"
      (some [[("a", none)]]) (some [[("b", some "x")]]) = (0, []) :=
  ⟨(claim_C6_pattern_sampling oracleNone oracleNone "a" "b").1
      (some [[("b", some "x")]]),
   (claim_C6_pattern_sampling oracleNone oracleNone "a" "b").2.1
      (some [[("a", some "x")]]),
   (claim_C6_pattern_sampling oracleNone oracleNone "a" "b").2.2
      [[("a", none)]] [[("b", some "x")]] (Or.inl (by decide))⟩

unseal Rat.mul Rat.inv Rat.add Rat.sub in
/-- Counterexample to C6 as stated: empty-string values are NOT dropped.
With one row holding the empty string on each side, the samples the code
builds are `[""]` (nonempty), and — since JS `Number("")` is `0`, i.e. not
NaN, modelled by the numeric-parse oracle returning true on `""` — the pair
scores 1.0 with three reasons, where the claim's sampling (empties dropped)
would force score 0 with no reasons. -/
theorem claim_C6_counterexample :
    sampleValues [[("a", some "")]] "a" = [""] ∧
    sampleValues [[("b", some "")]] "b" = [""] ∧
    calculatePatternSimilarity (fun s => s == "") oracleNone "a" "b"
      (some [[("a", some "")]]) (some [[("b", some "")]]) =
      (1, ["Similar data types (100% overlap)",
           "Similar value patterns (1 common patterns)",
           "Common values (1 shared values)"]) := by
  refine ⟨by decide, by decide, by decide⟩

unseal Rat.mul Rat.inv Rat.add Rat.sub in
/-- C8, amended: on `sourceColumns = ["Emial"]`, `targetColumns = ["Email"]`
with no sample data the engine returns NO match: the name-similarity score is
3/5 = 0.6, below the 0.8 threshold, no semantic group covers "emial", and both
columns end up unmatched with overall confidence 0. -/
theorem claim_C8_emial_email :
    analyzeColumnAlignment oracleNone oracleNone ["Emial"] ["Email"]
      none none = ⟨[], ["Emial"], ["Email"], 0⟩ ∧
    calculateStringSimilarity "Emial" "Email" = 3/5 :=
  ⟨by decide, by decide⟩

unseal Rat.mul Rat.inv Rat.add Rat.sub in
/-- Counterexample to C8 as stated: the engine does not return exactly one
match on this input — it returns none. -/
theorem claim_C8_counterexample :
    ¬ ((analyzeColumnAlignment oracleNone oracleNone ["Emial"] ["Email"]
        none none).«matches».length = 1) := by
  decide
